import Mathlib

/-! # Default system-context backend (`exec::__system_context_default_impl`)

A shallow embedding of `include/exec/__detail/__system_context_default_impl.hpp`:

* the alignment adjuster `__ensure_alignment` and the placement decision of
  `__operation::__construct_maybe_alloc` (addresses and sizes are 64-bit machine words,
  modelled as `Nat` with explicit reduction modulo `2 ^ 64`);
* the completion adapter `__recv` and `__operation::__destruct`, as state passing over a
  store of live containers together with a trace of observable effects;
* the chunk partitioner `__chunker` and the chunk arithmetic of `schedule_bulk_chunked`
  (`uint32_t`, modelled as `Nat` with explicit reduction modulo `2 ^ 32`);
* the singleton registry `__instance_data`, first as sequential state passing and then as
  an interleaving step relation over the critical sections of `__get_current_instance`.
-/

namespace SystemContext

/-! ## Machine words -/

/-- Addition of two `size_t` / `uintptr_t` values (wraps modulo `2 ^ 64`). -/
def add64 (a b : Nat) : Nat := (a + b) % 2 ^ 64

/-- Subtraction of two `size_t` / `uintptr_t` values (wraps modulo `2 ^ 64`). -/
def sub64 (a b : Nat) : Nat := (a % 2 ^ 64 + 2 ^ 64 - b % 2 ^ 64) % 2 ^ 64

/-- Bitwise complement `~a` of a 64-bit word. -/
def not64 (a : Nat) : Nat := 2 ^ 64 - 1 - a % 2 ^ 64

/-- Bitwise conjunction `a & b` of two 64-bit words. -/
def and64 (a b : Nat) : Nat := (a % 2 ^ 64) &&& (b % 2 ^ 64)

/-- Addition of two `uint32_t` values (wraps modulo `2 ^ 32`). -/
def add32 (a b : Nat) : Nat := (a + b) % 2 ^ 32

/-- Subtraction of two `uint32_t` values (wraps modulo `2 ^ 32`). -/
def sub32 (a b : Nat) : Nat := (a % 2 ^ 32 + 2 ^ 32 - b % 2 ^ 32) % 2 ^ 32

/-- Multiplication of two `uint32_t` values (wraps modulo `2 ^ 32`). -/
def mul32 (a b : Nat) : Nat := (a * b) % 2 ^ 32

/-- Conversion `static_cast<uint32_t>(x)`. -/
def toU32 (x : Nat) : Nat := x % 2 ^ 32

/-! ## Alignment adjuster -/

/-- A `std::span<std::byte>`: the address `data()` (`0` is `nullptr`) and `size()`.
The default-constructed span `{}` is `⟨0, 0⟩`. -/
structure Span where
  /-- The start address, `reinterpret_cast<uintptr_t>(data())`. -/
  data : Nat
  /-- The length in bytes. -/
  size : Nat
deriving DecidableEq

/-- The function `__ensure_alignment(__storage, __alignment)`. -/
def __ensure_alignment (__storage : Span) (__alignment : Nat) : Span :=
  let __pn := __storage.data
  if __pn % __alignment = 0 then
    __storage
  else if __storage.size < __alignment then
    ⟨0, 0⟩
  else
    let __new_pn := and64 (sub64 (add64 __pn __alignment) 1) (not64 (sub64 __alignment 1))
    ⟨__new_pn, sub64 __storage.size (sub64 __new_pn __pn)⟩

/-! ## Operation container: placement decision -/

/-- What `__operation::__construct_maybe_alloc` did: the value given to `__on_heap_`, the
address handed to placement `new` (`none` when plain `new` chose the address), and the
number of heap allocations performed. -/
structure Constructed where
  /-- The flag `__on_heap_` of the constructed container. -/
  __on_heap_ : Bool
  /-- The address of in-place construction, if any. -/
  placement : Option Nat
  /-- How many times `new __operation(...)` ran. -/
  heap_allocations : Nat
deriving DecidableEq

/-- The function `__operation::__construct_maybe_alloc`, as far as storage is concerned;
`sizeofOp` and `alignofOp` stand for `sizeof(__operation)` and `alignof(__operation)`,
which depend on the sender type. -/
def __construct_maybe_alloc (__storage : Span) (sizeofOp alignofOp : Nat) : Constructed :=
  let __storage := __ensure_alignment __storage alignofOp
  if __storage.data = 0 ∨ __storage.size < sizeofOp then
    ⟨true, none, 1⟩
  else
    ⟨false, some __storage.data, 0⟩

/-! ## Completion adapter and container teardown -/

/-- The adapter `__recv<_Sender>`: the two pointers it holds. -/
structure __recv where
  /-- The external receiver, `receiver* __r_`. -/
  __r_ : Nat
  /-- The owning container, `__operation<_Sender>* __op_`. -/
  __op_ : Nat
deriving DecidableEq

/-- The container `__operation<_Sender>`. The inner operation state is the result of
connecting the sender with the adapter; what the model keeps of it is the adapter stored
inside it. -/
structure __operation where
  /-- The connected inner operation (it holds the adapter). -/
  __inner_op_ : __recv
  /-- True if the container was allocated with `new`. -/
  __on_heap_ : Bool
deriving DecidableEq

/-- The private constructor `__operation(__sndr, __completion, __on_heap)` run at address
`this`: it connects the sender with `__recv{__completion, this}`. -/
def __operation.construct (this __completion : Nat) (__on_heap : Bool) : __operation :=
  ⟨⟨__completion, this⟩, __on_heap⟩

/-- Observable effects of the completion path, in program order. -/
inductive Effect where
  /-- The statement `delete this` on the container at the address. -/
  | op_delete (op : Nat)
  /-- The statement `std::destroy_at(this)` on the container at the address. -/
  | op_destroy_at (op : Nat)
  /-- The call `__r->set_value()` on the external receiver. -/
  | r_set_value (r : Nat)
  /-- The call `__r->set_error(__ptr)` on the external receiver. -/
  | r_set_error (r : Nat) (ptr : Nat)
  /-- The call `__r->set_stopped()` on the external receiver. -/
  | r_set_stopped (r : Nat)
deriving DecidableEq

/-- The program state seen by the completion path: the containers that are alive, by
address, and the effects performed so far. -/
structure Store where
  /-- The live containers. -/
  live : List (Nat × __operation)
  /-- The effects so far, oldest first. -/
  trace : List Effect
deriving DecidableEq

/-- Reading a container through a pointer; `none` when no live container is there
(the access would be undefined). -/
def Store.read (s : Store) (addr : Nat) : Option __operation :=
  s.live.lookup addr

/-- The method `__operation::__destruct()` called through the pointer `this`. -/
def __destruct (s : Store) (this : Nat) : Option Store :=
  match s.read this with
  | none => none
  | some op =>
    if op.__on_heap_ then
      some ⟨s.live.filter (fun e => e.1 != this), s.trace ++ [Effect.op_delete this]⟩
    else
      some ⟨s.live.filter (fun e => e.1 != this), s.trace ++ [Effect.op_destroy_at this]⟩

/-- The method `__recv::set_value()`; `this` is the container the adapter lives in. -/
def __recv.set_value (s : Store) (this : Nat) : Option Store :=
  match s.read this with
  | none => none
  | some self =>
    let __op := self.__inner_op_.__op_
    let __r := self.__inner_op_.__r_
    match __destruct s __op with
    | none => none
    | some s1 => some { s1 with trace := s1.trace ++ [Effect.r_set_value __r] }

/-- The method `__recv::set_error(__ptr)`. -/
def __recv.set_error (s : Store) (this : Nat) (__ptr : Nat) : Option Store :=
  match s.read this with
  | none => none
  | some self =>
    let __op := self.__inner_op_.__op_
    let __r := self.__inner_op_.__r_
    match __destruct s __op with
    | none => none
    | some s1 => some { s1 with trace := s1.trace ++ [Effect.r_set_error __r __ptr] }

/-- The method `__recv::set_stopped()`. -/
def __recv.set_stopped (s : Store) (this : Nat) : Option Store :=
  match s.read this with
  | none => none
  | some self =>
    let __op := self.__inner_op_.__op_
    let __r := self.__inner_op_.__r_
    match __destruct s __op with
    | none => none
    | some s1 => some { s1 with trace := s1.trace ++ [Effect.r_set_stopped __r] }

/-- The three completion signals. -/
inductive Signal where
  /-- Success. -/
  | value
  /-- Failure, with the exception pointer. -/
  | error (ptr : Nat)
  /-- Cancellation. -/
  | stopped
deriving DecidableEq

/-- Delivery of a completion signal to the adapter living in container `this`. -/
def deliver (s : Store) (this : Nat) : Signal → Option Store
  | Signal.value => __recv.set_value s this
  | Signal.error ptr => __recv.set_error s this ptr
  | Signal.stopped => __recv.set_stopped s this

/-- The teardown effect `__destruct` performs for a container with the given flag. -/
def teardownEffect (this : Nat) (on_heap : Bool) : Effect :=
  if on_heap then Effect.op_delete this else Effect.op_destroy_at this

/-- The receiver callback that matches a signal. -/
def callbackEffect (r : Nat) : Signal → Effect
  | Signal.value => Effect.r_set_value r
  | Signal.error ptr => Effect.r_set_error r ptr
  | Signal.stopped => Effect.r_set_stopped r

/-! ## Chunk partitioner and bulk dispatch -/

/-- The helper `__generic_impl::__chunker`. -/
structure __chunker where
  /-- The field `uint32_t __chunk_size_`. -/
  __chunk_size_ : Nat
  /-- The field `uint32_t __max_size_`. -/
  __max_size_ : Nat
deriving DecidableEq

/-- The method `__chunker::__begin`. -/
def __chunker.__begin (c : __chunker) (__chunk_index : Nat) : Nat :=
  mul32 __chunk_index c.__chunk_size_

/-- The method `__chunker::__end`. -/
def __chunker.__end (c : __chunker) (__chunk_index : Nat) : Nat :=
  min (c.__begin (add32 __chunk_index 1)) c.__max_size_

/-- The call operator of `__bulk_chunked_functor`: the arguments of the `execute` call it
makes for `__idx` (an `unsigned long`). -/
def __bulk_chunked_functor (c : __chunker) (__idx : Nat) : Nat × Nat :=
  let __chunk_index := toU32 __idx
  (c.__begin __chunk_index, c.__end __chunk_index)

/-- The call operator of `__bulk_unchunked_functor`: the arguments of the `execute` call it
makes for `__idx` (an `unsigned long`). -/
def __bulk_unchunked_functor (__idx : Nat) : Nat × Nat :=
  (toU32 __idx, toU32 (add64 __idx 1))

/-- Modelled from the spec: `stdexec::bulk` is not part of this file. The spec describes it
as a primitive taking an iteration count and a per-item function, invoked once for every
index of `[0, count)` with no ordering between items. The list gives the per-item results
in index order, as a canonical enumeration of the unordered calls. -/
def bulk (count : Nat) (f : Nat → Nat × Nat) : List (Nat × Nat) :=
  (List.range count).map f

/-- The local `__chunk_size` of `schedule_bulk_chunked`, for the cached
`__available_parallelism_` and the argument `__size`. -/
def __chunk_size (__available_parallelism_ __size : Nat) : Nat :=
  if __available_parallelism_ > 0 ∧ __size > mul32 3 __available_parallelism_ then
    __size / __available_parallelism_ / 2
  else
    1

/-- The local `__num_chunks` of `schedule_bulk_chunked`; `none` when the division is by
zero (undefined behaviour). -/
def __num_chunks (__available_parallelism_ __size : Nat) : Option Nat :=
  let c := __chunk_size __available_parallelism_ __size
  if c = 0 then none else some (sub32 (add32 __size c) 1 / c)

/-- The `execute(begin, end)` calls issued by `schedule_bulk_chunked(__size, ..)`. -/
def schedule_bulk_chunked (__available_parallelism_ __size : Nat) : Option (List (Nat × Nat)) :=
  match __num_chunks __available_parallelism_ __size with
  | none => none
  | some n =>
    some (bulk n (__bulk_chunked_functor ⟨__chunk_size __available_parallelism_ __size, __size⟩))

/-- The `execute(begin, end)` calls issued by `schedule_bulk_unchunked(__size, ..)`. -/
def schedule_bulk_unchunked (__size : Nat) : List (Nat × Nat) :=
  bulk __size __bulk_unchunked_functor

/-! ## Singleton registry, sequential -/

/-- A `__parallel_scheduler_backend_factory`: a pointer to a function returning a
`std::shared_ptr` to a backend. The pointer is the address; `make n` is the result of
the call when `n` factory calls have been made before it (`none` is the null pointer,
`some i` owns the backend object `i`). -/
structure Factory where
  /-- The address of the function. -/
  addr : Nat
  /-- The pointer returned by a call, given the number of earlier factory calls. -/
  make : Nat → Option Nat

/-- The data members of `__instance_data`, and the history of factory calls. -/
structure Registry where
  /-- The spin lock `std::atomic<bool> __instance_locked_`. -/
  __instance_locked_ : Bool
  /-- The current instance `std::shared_ptr<_Interface> __instance_`. -/
  __instance_ : Option Nat
  /-- The current factory `__factory_`. -/
  __factory_ : Factory
  /-- The addresses of the factories called so far, oldest first. -/
  calls : List Nat

/-- The static member `__default_factory`: `std::make_shared<_Impl>()`, a new object on
every call. -/
def __default_factory : Factory := ⟨0, fun n => some n⟩

/-- The registry as initialised by the member initialisers. -/
def Registry.initial : Registry := ⟨false, none, __default_factory, []⟩

/-- The method `__acquire_instance_lock`. With a single thread a held lock is never
released, so the loop does not terminate: `none`. -/
def __acquire_instance_lock (s : Registry) : Option Registry :=
  if s.__instance_locked_ then none else some { s with __instance_locked_ := true }

/-- The method `__release_instance_lock`. -/
def __release_instance_lock (s : Registry) : Registry :=
  { s with __instance_locked_ := false }

/-- A call through a factory pointer. -/
def Registry.invoke (s : Registry) (f : Factory) : Option Nat × Registry :=
  (f.make s.calls.length, { s with calls := s.calls ++ [f.addr] })

/-- The method `__instance_data::__get_current_instance`, run by a single thread. -/
def __get_current_instance (s : Registry) : Option (Option Nat × Registry) :=
  match __acquire_instance_lock s with
  | none => none
  | some s1 =>
    let __r := s1.__instance_
    let s2 := __release_instance_lock s1
    if __r.isSome then
      some (__r, s2)
    else
      let (__new_instance, s3) := s2.invoke s2.__factory_
      match __acquire_instance_lock s3 with
      | none => none
      | some s4 =>
        let s5 := { s4 with __instance_ := __new_instance }
        let s6 := __release_instance_lock s5
        some (__new_instance, s6)

/-- The method `__instance_data::__set_backend_factory`, run by a single thread. The final
`__old_instance.reset()` drops a reference to the previous instance and leaves the registry
as it is. -/
def __set_backend_factory (s : Registry) (__new_factory : Factory) :
    Option (Factory × Registry) :=
  let __old_factory := s.__factory_
  let s1 := { s with __factory_ := __new_factory }
  let (__new_instance, s2) := s1.invoke __new_factory
  match __acquire_instance_lock s2 with
  | none => none
  | some s3 =>
    let s4 := { s3 with __instance_ := __new_instance }
    let s5 := __release_instance_lock s4
    some (__old_factory, s5)

/-! ## Singleton registry, concurrent calls of `__get_current_instance`

Every access to `__instance_` is made inside a critical section of the spin lock, whose
`exchange(acquire)` / `store(release)` pair orders the sections, so an execution is an
interleaving of the steps below. -/

/-- Where a thread stands in its call of `__get_current_instance`. -/
inductive Thread where
  /-- The call has not begun. -/
  | idle
  /-- Spinning in the first `__acquire_instance_lock`. -/
  | acquiring1
  /-- Lock held, before `auto __r = __instance_`. -/
  | holding1
  /-- Lock held, `__r` read, before the release. -/
  | read (r : Option Nat)
  /-- Lock released, before `if (__r)`. -/
  | released1 (r : Option Nat)
  /-- Before the call of the factory. -/
  | constructing
  /-- Spinning in the second `__acquire_instance_lock`, with `__new_instance`. -/
  | acquiring2 (n : Option Nat)
  /-- Lock held, before `__instance_ = __new_instance`. -/
  | holding2 (n : Option Nat)
  /-- Lock held, instance stored, before the release. -/
  | stored (n : Option Nat)
  /-- Lock released, before `return __new_instance`. -/
  | released2 (n : Option Nat)
  /-- The call has returned the pointer. -/
  | done (ret : Option Nat)
deriving DecidableEq

/-- The shared registry and the threads calling into it. -/
structure Sys where
  /-- The spin lock. -/
  locked : Bool
  /-- The current instance. -/
  inst : Option Nat
  /-- The function behind `__factory_`, as in `Factory.make`. -/
  make : Nat → Option Nat
  /-- The number of factory calls so far. -/
  made : Nat
  /-- The state of each thread. -/
  threads : Nat → Thread

/-- Replaces the state of thread `t`. -/
def Sys.setThread (s : Sys) (t : Nat) (th : Thread) : Sys :=
  { s with threads := fun u => if u = t then th else s.threads u }

/-- One step of thread `t`. A thread spinning on a held lock, and a thread whose call has
returned, leave the state as it is. -/
def Sys.step (s : Sys) (t : Nat) : Sys :=
  match s.threads t with
  | Thread.idle => s.setThread t Thread.acquiring1
  | Thread.acquiring1 =>
    if s.locked then s else { s with locked := true }.setThread t Thread.holding1
  | Thread.holding1 => s.setThread t (Thread.read s.inst)
  | Thread.read r => { s with locked := false }.setThread t (Thread.released1 r)
  | Thread.released1 r =>
    if r.isSome then s.setThread t (Thread.done r) else s.setThread t Thread.constructing
  | Thread.constructing =>
    { s with made := s.made + 1 }.setThread t (Thread.acquiring2 (s.make s.made))
  | Thread.acquiring2 n =>
    if s.locked then s else { s with locked := true }.setThread t (Thread.holding2 n)
  | Thread.holding2 n => { s with inst := n }.setThread t (Thread.stored n)
  | Thread.stored n => { s with locked := false }.setThread t (Thread.released2 n)
  | Thread.released2 n => s.setThread t (Thread.done n)
  | Thread.done _ => s

/-- Runs a schedule: the threads take one step each in the order listed. -/
def Sys.run (s : Sys) : List Nat → Sys
  | [] => s
  | t :: sched => (s.step t).run sched

/-- Cold start: lock free, no instance, no call begun. -/
def Sys.cold (make : Nat → Option Nat) : Sys :=
  ⟨false, none, make, 0, fun _ => Thread.idle⟩

/-- Whether a thread is in a call that found the registry empty and has not yet stored
its own instance. -/
def Thread.pendingStore : Thread → Bool
  | Thread.read r => r.isNone
  | Thread.released1 r => r.isNone
  | Thread.constructing => true
  | Thread.acquiring2 _ => true
  | Thread.holding2 _ => true
  | _ => false

/-- The next state of a thread taking a step, given the lock, the current instance and the
pointer the factory would return. -/
def Thread.next (locked : Bool) (inst fresh : Option Nat) : Thread → Thread
  | Thread.idle => Thread.acquiring1
  | Thread.acquiring1 => if locked then Thread.acquiring1 else Thread.holding1
  | Thread.holding1 => Thread.read inst
  | Thread.read r => Thread.released1 r
  | Thread.released1 r => if r.isSome then Thread.done r else Thread.constructing
  | Thread.constructing => Thread.acquiring2 fresh
  | Thread.acquiring2 n => if locked then Thread.acquiring2 n else Thread.holding2 n
  | Thread.holding2 n => Thread.stored n
  | Thread.stored n => Thread.released2 n
  | Thread.released2 n => Thread.done n
  | Thread.done r => Thread.done r

/-- Whether a thread is inside a critical section. -/
def Thread.holdsLock : Thread → Bool
  | Thread.holding1 => true
  | Thread.read _ => true
  | Thread.holding2 _ => true
  | Thread.stored _ => true
  | _ => false

/-- Consistency of a thread with the registry: pointers obtained from the factory are
non-null, and a non-null pointer read or stored means the registry holds an instance
(`instSome`). -/
def Thread.wf (instSome : Bool) : Thread → Bool
  | Thread.read r => !r.isSome || instSome
  | Thread.released1 r => !r.isSome || instSome
  | Thread.acquiring2 n => n.isSome
  | Thread.holding2 n => n.isSome
  | Thread.stored n => n.isSome && instSome
  | Thread.released2 n => n.isSome && instSome
  | Thread.done n => n.isSome && instSome
  | _ => true

/-- Whether the call of a thread, as far as it has come, has observed the instance `x`
only. -/
def Thread.follows (x : Nat) : Thread → Bool
  | Thread.idle => true
  | Thread.acquiring1 => true
  | Thread.holding1 => true
  | Thread.read r => r == some x
  | Thread.released1 r => r == some x
  | Thread.done r => r == some x
  | _ => false

/-- An upper bound on the steps a thread still needs when it is never kept waiting. -/
def Thread.remaining : Thread → Nat
  | Thread.idle => 10
  | Thread.acquiring1 => 9
  | Thread.holding1 => 8
  | Thread.read _ => 7
  | Thread.released1 _ => 6
  | Thread.constructing => 5
  | Thread.acquiring2 _ => 4
  | Thread.holding2 _ => 3
  | Thread.stored _ => 2
  | Thread.released2 _ => 1
  | Thread.done _ => 0

end SystemContext

namespace SystemContext

/-! ## Alignment adjuster: arithmetic of the rounding step -/

theorem mask_testBit (k i : Nat) (hk : k ≤ 64) :
    (2 ^ 64 - 2 ^ k).testBit i = (decide (k ≤ i) && decide (i < 64)) := by
  have h : 2 ^ 64 - 2 ^ k = (2 ^ (64 - k) - 1) <<< k := by
    rw [Nat.shiftLeft_eq, Nat.sub_mul, ← Nat.pow_add, Nat.one_mul]
    congr 2; omega
  rw [h, Nat.testBit_shiftLeft, Nat.testBit_two_pow_sub_one]
  by_cases h1 : k ≤ i <;> by_cases h2 : i < 64 <;> simp [h1, h2] <;> omega

theorem and_mask (x k : Nat) (hx : x < 2 ^ 64) (hk : k ≤ 64) :
    x &&& (2 ^ 64 - 2 ^ k) = x / 2 ^ k * 2 ^ k := by
  apply Nat.eq_of_testBit_eq
  intro i
  rw [Nat.testBit_and, mask_testBit k i hk, ← Nat.shiftLeft_eq, ← Nat.shiftRight_eq_div_pow,
    Nat.testBit_shiftLeft, Nat.testBit_shiftRight]
  by_cases h1 : k ≤ i
  · by_cases h2 : i < 64
    · simp [h1, h2]
    · have : x.testBit i = false := by
        apply Nat.testBit_lt_two_pow
        exact lt_of_lt_of_le hx (Nat.pow_le_pow_right (by decide) (by omega))
      simp [h1, h2, this]
  · simp [h1]

theorem pow_bounds (k : Nat) (hk : k < 64) : 1 ≤ 2 ^ k ∧ 2 ^ k ≤ 2 ^ 63 :=
  ⟨Nat.one_le_two_pow, Nat.pow_le_pow_right (by decide) (by omega)⟩

/-- The rounded address computed in the last branch of `__ensure_alignment`. -/
theorem new_pn_eq (a k : Nat) (ha : a < 2 ^ 64) (hk : k < 64) :
    and64 (sub64 (add64 a (2 ^ k)) 1) (not64 (sub64 (2 ^ k) 1))
      = (a + 2 ^ k - 1) % 2 ^ 64 / 2 ^ k * 2 ^ k := by
  obtain ⟨h1, h2⟩ := pow_bounds k hk
  have e1 : sub64 (add64 a (2 ^ k)) 1 = (a + 2 ^ k - 1) % 2 ^ 64 := by
    unfold sub64 add64; omega
  have e2 : not64 (sub64 (2 ^ k) 1) = 2 ^ 64 - 2 ^ k := by
    unfold not64 sub64; omega
  rw [e1, e2]
  unfold and64
  have hm : (2 ^ 64 - 2 ^ k) % 2 ^ 64 = 2 ^ 64 - 2 ^ k := Nat.mod_eq_of_lt (by omega)
  rw [Nat.mod_mod, hm]
  exact and_mask _ k (Nat.mod_lt _ (by decide)) (by omega)

/-- Rounding up an unaligned address: without wrap-around the result is the next multiple. -/
theorem round_up_eq (a A : Nat) (hA : 0 < A) (hna : a % A ≠ 0) :
    (a + A - 1) / A * A = (a / A + 1) * A := by
  have hlt := Nat.mod_lt a hA
  have hdm := Nat.div_add_mod a A
  have e : a + A - 1 = (a % A - 1) + A * (a / A + 1) := by
    rw [Nat.mul_add, Nat.mul_one]; omega
  rw [e, Nat.add_mul_div_left _ _ hA, Nat.div_eq_of_lt (by omega), Nat.zero_add]

/-- The next multiple of `A` above an unaligned `a` lies strictly between `a` and `a + A`. -/
theorem round_up_bounds (a A : Nat) (hA : 0 < A) (hna : a % A ≠ 0) :
    a < (a / A + 1) * A ∧ (a / A + 1) * A < a + A ∧ (a / A + 1) * A % A = 0 := by
  have hlt := Nat.mod_lt a hA
  have hdm := Nat.div_add_mod a A
  have e : (a / A + 1) * A = A * (a / A) + A := by rw [Nat.add_mul, Nat.one_mul, Nat.mul_comm]
  refine ⟨by omega, by omega, Nat.mul_mod_left _ _⟩

/-- The last branch of `__ensure_alignment` when `a + A` stays within the address width. -/
theorem ensure_alignment_shrink (a n k : Nat) (ha : a < 2 ^ 64) (hn : n < 2 ^ 64) (hk : k < 64)
    (hna : a % 2 ^ k ≠ 0) (hsz : 2 ^ k ≤ n) (hov : a + 2 ^ k ≤ 2 ^ 64) :
    __ensure_alignment ⟨a, n⟩ (2 ^ k)
      = ⟨(a / 2 ^ k + 1) * 2 ^ k, a + n - (a / 2 ^ k + 1) * 2 ^ k⟩ := by
  obtain ⟨h1, h2⟩ := pow_bounds k hk
  obtain ⟨b1, b2, _⟩ := round_up_bounds a (2 ^ k) (by omega) hna
  have hp : and64 (sub64 (add64 a (2 ^ k)) 1) (not64 (sub64 (2 ^ k) 1))
      = (a / 2 ^ k + 1) * 2 ^ k := by
    rw [new_pn_eq a k ha hk, Nat.mod_eq_of_lt (by omega), round_up_eq a _ (by omega) hna]
  unfold __ensure_alignment
  simp only [hna, if_false, Nat.not_lt.mpr hsz, hp]
  congr 1
  unfold sub64
  omega

/-- The last branch of `__ensure_alignment` when `a + A` wraps: the rounded address is null. -/
theorem ensure_alignment_wrap (a n k : Nat) (ha : a < 2 ^ 64) (hk : k < 64)
    (hna : a % 2 ^ k ≠ 0) (hsz : 2 ^ k ≤ n) (hov : 2 ^ 64 < a + 2 ^ k) :
    (__ensure_alignment ⟨a, n⟩ (2 ^ k)).data = 0 := by
  obtain ⟨h1, h2⟩ := pow_bounds k hk
  have hp : and64 (sub64 (add64 a (2 ^ k)) 1) (not64 (sub64 (2 ^ k) 1)) = 0 := by
    rw [new_pn_eq a k ha hk]
    have : (a + 2 ^ k - 1) % 2 ^ 64 = a + 2 ^ k - 1 - 2 ^ 64 := by omega
    rw [this, Nat.div_eq_of_lt (by omega), Nat.zero_mul]
  unfold __ensure_alignment
  simp only [hna, if_false, Nat.not_lt.mpr hsz, hp]

/-- The span returned by `__ensure_alignment` is never longer than its input. -/
theorem ensure_alignment_size_le (a n k : Nat) (ha : a < 2 ^ 64) (hn : n < 2 ^ 64)
    (hk : k < 64) : (__ensure_alignment ⟨a, n⟩ (2 ^ k)).size ≤ n := by
  obtain ⟨h1, h2⟩ := pow_bounds k hk
  by_cases hna : a % 2 ^ k = 0
  · simp [__ensure_alignment, hna]
  · by_cases hsz : n < 2 ^ k
    · simp [__ensure_alignment, hna, hsz]
    · simp only [__ensure_alignment, hna, if_false, hsz]
      have hpos : 0 < a := by
        rcases Nat.eq_zero_or_pos a with h | h
        · rw [h, Nat.zero_mod] at hna; exact absurd rfl hna
        · exact h
      rw [new_pn_eq a k ha hk]
      by_cases hov : a + 2 ^ k - 1 < 2 ^ 64
      · obtain ⟨b1, b2, _⟩ := round_up_bounds a (2 ^ k) (by omega) hna
        rw [Nat.mod_eq_of_lt hov, round_up_eq a _ (by omega) hna]
        unfold sub64
        omega
      · have : (a + 2 ^ k - 1) % 2 ^ 64 = a + 2 ^ k - 1 - 2 ^ 64 := by omega
        rw [this, Nat.div_eq_of_lt (by omega), Nat.zero_mul]
        unfold sub64
        omega

/-! ## Alignment adjuster and placement decision: the contracts -/

/-- C6 (as amended): for a byte span `[a, a + n)` lying in the 64-bit address space and a
power-of-two alignment `A = 2 ^ k`, `__ensure_alignment` returns the input unchanged when
`a` is a multiple of `A`; when `a` is not a multiple of `A` and `n ≥ A` it returns the span
that starts at the smallest multiple `p` of `A` with `p ≥ a` and ends at `a + n` (the
largest sub-span with an aligned start); and when `a` is not a multiple of `A` and `n < A`
it returns the empty span `{}`, whether or not an aligned address lies inside the input. -/
theorem ensure_alignment_contract (a n k : Nat) (hk : k < 64) (hfit : a + n ≤ 2 ^ 64)
    (hn : n < 2 ^ 64) :
    (a % 2 ^ k = 0 → __ensure_alignment ⟨a, n⟩ (2 ^ k) = ⟨a, n⟩) ∧
    (a % 2 ^ k ≠ 0 → 2 ^ k ≤ n →
      ∃ p, __ensure_alignment ⟨a, n⟩ (2 ^ k) = ⟨p, a + n - p⟩ ∧
        p % 2 ^ k = 0 ∧ a ≤ p ∧ p ≤ a + n ∧ ∀ q, a ≤ q → q % 2 ^ k = 0 → p ≤ q) ∧
    (a % 2 ^ k ≠ 0 → n < 2 ^ k → __ensure_alignment ⟨a, n⟩ (2 ^ k) = ⟨0, 0⟩) := by
  obtain ⟨h1, h2⟩ := pow_bounds k hk
  refine ⟨fun h => by simp [__ensure_alignment, h], fun hna hsz => ?_,
    fun hna hsz => by simp [__ensure_alignment, hna, hsz]⟩
  obtain ⟨b1, b2, b3⟩ := round_up_bounds a (2 ^ k) (by omega) hna
  refine ⟨(a / 2 ^ k + 1) * 2 ^ k,
    ensure_alignment_shrink a n k (by omega) hn hk hna hsz (by omega), b3, by omega, by omega,
    fun q hq hqa => ?_⟩
  obtain ⟨c, rfl⟩ := Nat.dvd_of_mod_eq_zero hqa
  rw [Nat.mul_comm]
  apply Nat.mul_le_mul_left
  have hlt : a / 2 ^ k < c := by
    apply (Nat.div_lt_iff_lt_mul (by omega : 0 < 2 ^ k)).mpr
    rw [Nat.mul_comm]
    rcases Nat.lt_or_ge a (2 ^ k * c) with h | h
    · exact h
    · have : a = 2 ^ k * c := by omega
      rw [this, Nat.mul_mod_right] at hna
      exact absurd rfl hna
  omega

/-- Witness for `ensure_alignment_contract`: an aligned span, a shrunk span and a span
too short to be shrunk. -/
theorem ensure_alignment_contract_witness :
    (64 % 2 ^ 3 = 0 ∧ __ensure_alignment ⟨64, 100⟩ (2 ^ 3) = ⟨64, 100⟩) ∧
    (61 % 2 ^ 3 ≠ 0 ∧ 2 ^ 3 ≤ 100 ∧
      ∃ p, __ensure_alignment ⟨61, 100⟩ (2 ^ 3) = ⟨p, 61 + 100 - p⟩ ∧
        p % 2 ^ 3 = 0 ∧ 61 ≤ p ∧ p ≤ 61 + 100 ∧ ∀ q, 61 ≤ q → q % 2 ^ 3 = 0 → p ≤ q) ∧
    (5 % 2 ^ 3 ≠ 0 ∧ 7 < 2 ^ 3 ∧ __ensure_alignment ⟨5, 7⟩ (2 ^ 3) = ⟨0, 0⟩) :=
  ⟨⟨by decide,
      (ensure_alignment_contract 64 100 3 (by decide) (by decide) (by decide)).1 (by decide)⟩,
    ⟨by decide, by decide,
      (ensure_alignment_contract 61 100 3 (by decide) (by decide) (by decide)).2.1
        (by decide) (by decide)⟩,
    ⟨by decide, by decide,
      (ensure_alignment_contract 5 7 3 (by decide) (by decide) (by decide)).2.2
        (by decide) (by decide)⟩⟩

/-- C6 fails as stated: for the span `[5, 12)` and alignment 8 the aligned address 8 leaves
the four bytes `[8, 12)` inside the input, yet `__ensure_alignment` returns the empty span
instead of `⟨8, 4⟩`. -/
theorem ensure_alignment_largest_counterexample :
    (5 ≤ 8 ∧ 8 % 8 = 0 ∧ 8 < 5 + 7) ∧
    __ensure_alignment ⟨5, 7⟩ 8 = ⟨0, 0⟩ ∧
    __ensure_alignment ⟨5, 7⟩ 8 ≠ ⟨8, 5 + 7 - 8⟩ := by
  decide

/-- C4: for a scratch span `(a, n)`, a container size `Z` and a power-of-two alignment
`2 ^ k`: a span shorter than the container makes `__construct_maybe_alloc` allocate on the
heap with `__on_heap_ = true`; a non-null, aligned span of at least `Z` bytes makes it
construct at `a` with `__on_heap_ = false` and no heap allocation; and in general the flag
is false exactly when the span returned by `__ensure_alignment` is non-null and at least
`Z` bytes long. -/
theorem construct_maybe_alloc_flag (a n k Z : Nat) (ha : a < 2 ^ 64) (hn : n < 2 ^ 64)
    (hk : k < 64) :
    (n < Z → __construct_maybe_alloc ⟨a, n⟩ Z (2 ^ k) = ⟨true, none, 1⟩) ∧
    (a ≠ 0 → a % 2 ^ k = 0 → Z ≤ n →
      __construct_maybe_alloc ⟨a, n⟩ Z (2 ^ k) = ⟨false, some a, 0⟩) ∧
    ((__construct_maybe_alloc ⟨a, n⟩ Z (2 ^ k)).__on_heap_ = false ↔
      (__ensure_alignment ⟨a, n⟩ (2 ^ k)).data ≠ 0 ∧
        Z ≤ (__ensure_alignment ⟨a, n⟩ (2 ^ k)).size) := by
  refine ⟨fun h => ?_, fun h0 hal hsz => ?_, ?_⟩
  · have := ensure_alignment_size_le a n k ha hn hk
    unfold __construct_maybe_alloc
    rw [if_pos (Or.inr (by omega))]
  · have e : __ensure_alignment ⟨a, n⟩ (2 ^ k) = ⟨a, n⟩ := by simp [__ensure_alignment, hal]
    unfold __construct_maybe_alloc
    simp only [e]
    rw [if_neg (by simp only [not_or, Nat.not_lt]; exact ⟨h0, hsz⟩)]
  · unfold __construct_maybe_alloc
    by_cases h : (__ensure_alignment ⟨a, n⟩ (2 ^ k)).data = 0 ∨
        (__ensure_alignment ⟨a, n⟩ (2 ^ k)).size < Z
    · simp only [if_pos h]
      constructor
      · intro hc; cases hc
      · rintro ⟨h1, h2⟩
        rcases h with h | h
        · exact absurd h h1
        · omega
    · simp only [if_neg h, true_iff]
      simp only [not_or, Nat.not_lt] at h
      exact h

/-- Witness for `construct_maybe_alloc_flag`: a 100-byte span at address 64 with a 72-byte
container is used in place, a 40-byte span is not. -/
theorem construct_maybe_alloc_flag_witness :
    (40 < 72 ∧ __construct_maybe_alloc ⟨64, 40⟩ 72 (2 ^ 3) = ⟨true, none, 1⟩) ∧
    (64 ≠ 0 ∧ 64 % 2 ^ 3 = 0 ∧ 72 ≤ 100 ∧
      __construct_maybe_alloc ⟨64, 100⟩ 72 (2 ^ 3) = ⟨false, some 64, 0⟩) :=
  ⟨⟨by decide,
      (construct_maybe_alloc_flag 64 40 3 72 (by decide) (by decide) (by decide)).1
        (by decide)⟩,
    ⟨by decide, by decide, by decide,
      (construct_maybe_alloc_flag 64 100 3 72 (by decide) (by decide) (by decide)).2.1
        (by decide) (by decide) (by decide)⟩⟩

/-- C9 (as amended): for a scratch span `[a, a + n)`, a power-of-two alignment `A = 2 ^ k`
with `a + A` inside the address width, and any container size `Z`: whenever
`__construct_maybe_alloc` constructs in place (`__on_heap_ = false`), the address `p` is a
multiple of `A`, `a ≤ p` and `p + Z ≤ a + n`; and the span returned by
`__ensure_alignment` ends at `a + n` whenever `a` is aligned or `n ≥ A`, while in the
remaining case it is the empty span `{}`, which ends at address 0. -/
theorem construct_in_place_inside_span (a n k Z : Nat) (ha : a < 2 ^ 64) (hn : n < 2 ^ 64)
    (hk : k < 64) (hov : a + 2 ^ k ≤ 2 ^ 64) :
    ((__construct_maybe_alloc ⟨a, n⟩ Z (2 ^ k)).__on_heap_ = false →
      ∃ p, (__construct_maybe_alloc ⟨a, n⟩ Z (2 ^ k)).placement = some p ∧
        p % 2 ^ k = 0 ∧ a ≤ p ∧ p + Z ≤ a + n) ∧
    (a % 2 ^ k = 0 ∨ 2 ^ k ≤ n →
      (__ensure_alignment ⟨a, n⟩ (2 ^ k)).data + (__ensure_alignment ⟨a, n⟩ (2 ^ k)).size
        = a + n) ∧
    (a % 2 ^ k ≠ 0 → n < 2 ^ k → __ensure_alignment ⟨a, n⟩ (2 ^ k) = ⟨0, 0⟩) := by
  obtain ⟨h1, h2⟩ := pow_bounds k hk
  have key : a % 2 ^ k = 0 ∨ 2 ^ k ≤ n →
      (__ensure_alignment ⟨a, n⟩ (2 ^ k)).data % 2 ^ k = 0 ∧
      a ≤ (__ensure_alignment ⟨a, n⟩ (2 ^ k)).data ∧
      (__ensure_alignment ⟨a, n⟩ (2 ^ k)).data + (__ensure_alignment ⟨a, n⟩ (2 ^ k)).size
        = a + n := by
    intro h
    by_cases hal : a % 2 ^ k = 0
    · have e : __ensure_alignment ⟨a, n⟩ (2 ^ k) = ⟨a, n⟩ := by simp [__ensure_alignment, hal]
      rw [e]; exact ⟨hal, Nat.le_refl _, rfl⟩
    · have hsz : 2 ^ k ≤ n := h.resolve_left hal
      obtain ⟨b1, b2, b3⟩ := round_up_bounds a (2 ^ k) (by omega) hal
      rw [ensure_alignment_shrink a n k ha hn hk hal hsz hov]
      refine ⟨b3, ?_, ?_⟩
      · show a ≤ (a / 2 ^ k + 1) * 2 ^ k
        omega
      · show (a / 2 ^ k + 1) * 2 ^ k + (a + n - (a / 2 ^ k + 1) * 2 ^ k) = a + n
        omega
  refine ⟨fun hflag => ?_, fun h => (key h).2.2,
    fun hna hsz => by simp [__ensure_alignment, hna, hsz]⟩
  unfold __construct_maybe_alloc at hflag ⊢
  by_cases h : (__ensure_alignment ⟨a, n⟩ (2 ^ k)).data = 0 ∨
      (__ensure_alignment ⟨a, n⟩ (2 ^ k)).size < Z
  · simp only [if_pos h] at hflag; cases hflag
  · simp only [if_neg h]
    simp only [not_or, Nat.not_lt] at h
    have hcase : a % 2 ^ k = 0 ∨ 2 ^ k ≤ n := by
      by_cases hal : a % 2 ^ k = 0
      · exact Or.inl hal
      · right
        by_contra hsz
        have e : __ensure_alignment ⟨a, n⟩ (2 ^ k) = ⟨0, 0⟩ := by
          simp [__ensure_alignment, hal, Nat.lt_of_not_le hsz]
        rw [e] at h
        exact h.1 rfl
    obtain ⟨k1, k2, k3⟩ := key hcase
    exact ⟨_, rfl, k1, k2, by omega⟩

/-- Witness for `construct_in_place_inside_span`: a 100-byte span at the unaligned address
61 holds a 72-byte container at address 64. -/
theorem construct_in_place_inside_span_witness :
    (61 < 2 ^ 64 ∧ 100 < 2 ^ 64 ∧ 3 < 64 ∧ 61 + 2 ^ 3 ≤ 2 ^ 64) ∧
    (__construct_maybe_alloc ⟨61, 100⟩ 72 (2 ^ 3)).__on_heap_ = false ∧
    (∃ p, (__construct_maybe_alloc ⟨61, 100⟩ 72 (2 ^ 3)).placement = some p ∧
        p % 2 ^ 3 = 0 ∧ 61 ≤ p ∧ p + 72 ≤ 61 + 100) ∧
    (__ensure_alignment ⟨61, 100⟩ (2 ^ 3)).data + (__ensure_alignment ⟨61, 100⟩ (2 ^ 3)).size
        = 61 + 100 :=
  ⟨⟨by decide, by decide, by decide, by decide⟩, by decide,
    (construct_in_place_inside_span 61 100 3 72 (by decide) (by decide) (by decide)
      (by decide)).1 (by decide),
    (construct_in_place_inside_span 61 100 3 72 (by decide) (by decide) (by decide)
      (by decide)).2.1 (Or.inr (by decide))⟩

/-- C9 fails as stated: for the span `[3, 5)` and alignment 4 (with `3 + 4` far from
overflowing) the span returned by `__ensure_alignment` is `{}`, which ends at address 0
and not at `3 + 2`. -/
theorem ensure_alignment_end_counterexample :
    3 + 4 < 2 ^ 64 ∧
    __ensure_alignment ⟨3, 2⟩ 4 = ⟨0, 0⟩ ∧
    (__ensure_alignment ⟨3, 2⟩ 4).data + (__ensure_alignment ⟨3, 2⟩ 4).size ≠ 3 + 2 := by
  decide

/-! ## Completion adapter: teardown precedes the callback -/

theorem lookup_filter_self (l : List (Nat × __operation)) (a : Nat) :
    (l.filter (fun e => e.1 != a)).lookup a = none := by
  induction l with
  | nil => rfl
  | cons e l ih =>
    obtain ⟨b, op⟩ := e
    by_cases h : b = a
    · have hp : (b != a) = false := by simp [h]
      rw [List.filter_cons_of_neg (by simp [hp])]
      exact ih
    · have hp : (b != a) = true := by simp [h]
      have h2 : (a == b) = false := by simp [Ne.symm h]
      rw [List.filter_cons_of_pos (by simp [hp]), List.lookup_cons, h2]
      exact ih

theorem lookup_filter_other (l : List (Nat × __operation)) (a b : Nat) (hab : b ≠ a) :
    (l.filter (fun e => e.1 != a)).lookup b = l.lookup b := by
  induction l with
  | nil => rfl
  | cons e l ih =>
    obtain ⟨c, op⟩ := e
    by_cases h : c = a
    · have hp : (c != a) = false := by simp [h]
      have h2 : (b == c) = false := by simp [h, hab]
      rw [List.filter_cons_of_neg (by simp [hp]), List.lookup_cons, h2]
      exact ih
    · have hp : (c != a) = true := by simp [h]
      rw [List.filter_cons_of_pos (by simp [hp]), List.lookup_cons, List.lookup_cons, ih]

/-- The method `__destruct` on a live container: it succeeds, appends the teardown effect
selected by the heap flag, and the container is no longer alive. -/
theorem destruct_live (s : Store) (this : Nat) (op : __operation)
    (hlive : s.read this = some op) :
    __destruct s this
      = some ⟨s.live.filter (fun e => e.1 != this),
          s.trace ++ [teardownEffect this op.__on_heap_]⟩ := by
  unfold __destruct teardownEffect
  rw [hlive]
  cases h : op.__on_heap_ <;> simp [h]

/-- C3: for each completion signal delivered to the adapter of a live container (built by
the constructor at address `this` for receiver `r`), the call runs to completion and its
effects are exactly the teardown of that container (`delete` if `__on_heap_`, in-place
destruction otherwise) followed by the matching callback on `r` (with the same exception
pointer for `set_error`); no other effect happens, the container is gone afterwards and no
other container is touched. -/
theorem completion_signal_effects (s : Store) (this r : Nat) (on_heap : Bool) (sig : Signal)
    (hlive : s.read this = some (__operation.construct this r on_heap)) :
    ∃ s', deliver s this sig = some s' ∧
      s'.trace = s.trace ++ [teardownEffect this on_heap, callbackEffect r sig] ∧
      s'.read this = none ∧
      ∀ other, other ≠ this → s'.read other = s.read other := by
  have hd := destruct_live s this _ hlive
  simp only [__operation.construct] at hd hlive
  cases sig <;>
    simp only [deliver, __recv.set_value, __recv.set_error, __recv.set_stopped, hlive, hd,
      callbackEffect] <;>
    exact ⟨_, rfl, by simp, lookup_filter_self _ _,
      fun other ho => lookup_filter_other _ _ _ ho⟩

/-- Witness for `completion_signal_effects`: an error completion of a heap-allocated
container at address 100 with receiver 7. -/
theorem completion_signal_effects_witness :
    (Store.read ⟨[(100, __operation.construct 100 7 true)], []⟩ 100
        = some (__operation.construct 100 7 true)) ∧
    ∃ s', deliver ⟨[(100, __operation.construct 100 7 true)], []⟩ 100 (Signal.error 3)
        = some s' ∧
      s'.trace = [] ++ [teardownEffect 100 true, callbackEffect 7 (Signal.error 3)] ∧
      s'.read 100 = none ∧
      ∀ other, other ≠ 100 →
        s'.read other = Store.read ⟨[(100, __operation.construct 100 7 true)], []⟩ other :=
  ⟨by decide,
    completion_signal_effects ⟨[(100, __operation.construct 100 7 true)], []⟩ 100 7 true
      (Signal.error 3) (by decide)⟩

/-! ## Chunk partitioner -/

/-- The number of valid chunk indices `⌈S / C⌉`, bracketed by multiples of `C`. -/
theorem ceil_div_bounds (S C : Nat) (hC : 1 ≤ C) :
    S ≤ (S + C - 1) / C * C ∧ (S + C - 1) / C * C < S + C := by
  have h1 := Nat.div_add_mod (S + C - 1) C
  have h2 := Nat.mod_lt (S + C - 1) (by omega : 0 < C)
  rw [Nat.mul_comm] at h1
  constructor <;> omega

/-- On a valid chunk index no `uint32_t` operation of the chunker wraps, provided the
unclipped end of the last chunk fits in 32 bits. -/
theorem chunker_valid_index (S C i : Nat) (hC : 1 ≤ C)
    (hfit : (S + C - 1) / C * C < 2 ^ 32) (hi : i < (S + C - 1) / C) :
    i * C < S ∧ (⟨C, S⟩ : __chunker).__begin i = i * C ∧
      (⟨C, S⟩ : __chunker).__end i = min (i * C + C) S := by
  obtain ⟨b1, b2⟩ := ceil_div_bounds S C hC
  have hmul : (i + 1) * C ≤ (S + C - 1) / C * C := Nat.mul_le_mul_right C hi
  have hsucc : (i + 1) * C = i * C + C := by rw [Nat.add_mul, Nat.one_mul]
  have hile : i ≤ i * C := Nat.le_mul_of_pos_right i (by omega)
  refine ⟨by omega, ?_, ?_⟩
  · show mul32 i C = i * C
    unfold mul32
    exact Nat.mod_eq_of_lt (by omega)
  · show min (mul32 (add32 i 1) C) S = min (i * C + C) S
    have e1 : add32 i 1 = i + 1 := by
      unfold add32
      exact Nat.mod_eq_of_lt (by omega)
    rw [e1]
    unfold mul32
    rw [Nat.mod_eq_of_lt (by omega), hsucc]

/-- C1 (as amended): for a total size `S` and a chunk size `C ≥ 1` such that
`⌈S / C⌉ · C`, the unclipped end of the last chunk, fits in `uint32_t` (as it does whenever
`S + C - 1` fits), the ranges `[__begin(i), __end(i))` for `i < ⌈S / C⌉` are non-empty, at most `C`
long, ordered and pairwise disjoint (`__end(i) ≤ __begin(j)` for `i < j`), and every
`x < S` lies in exactly one of them while no range contains a value `≥ S`. -/
theorem chunker_partition (S C : Nat) (hC : 1 ≤ C)
    (hfit : (S + C - 1) / C * C < 2 ^ 32) :
    (∀ i, i < (S + C - 1) / C →
      (⟨C, S⟩ : __chunker).__begin i < (⟨C, S⟩ : __chunker).__end i ∧
      (⟨C, S⟩ : __chunker).__end i - (⟨C, S⟩ : __chunker).__begin i ≤ C) ∧
    (∀ i j, i < j → j < (S + C - 1) / C →
      (⟨C, S⟩ : __chunker).__end i ≤ (⟨C, S⟩ : __chunker).__begin j) ∧
    (∀ x, x < S → ∃! i, i < (S + C - 1) / C ∧
      (⟨C, S⟩ : __chunker).__begin i ≤ x ∧ x < (⟨C, S⟩ : __chunker).__end i) ∧
    (∀ i x, i < (S + C - 1) / C → x < (⟨C, S⟩ : __chunker).__end i → x < S) := by
  obtain ⟨b1, b2⟩ := ceil_div_bounds S C hC
  have hCpos : 0 < C := by omega
  refine ⟨fun i hi => ?_, fun i j hij hj => ?_, fun x hx => ?_, fun i x hi hxe => ?_⟩
  · obtain ⟨v1, v2, v3⟩ := chunker_valid_index S C i hC hfit hi
    rw [v2, v3]
    constructor <;> omega
  · obtain ⟨_, _, v3⟩ := chunker_valid_index S C i hC hfit (by omega)
    obtain ⟨_, w2, _⟩ := chunker_valid_index S C j hC hfit hj
    have hmul : (i + 1) * C ≤ j * C := Nat.mul_le_mul_right C hij
    have hsucc : (i + 1) * C = i * C + C := by rw [Nat.add_mul, Nat.one_mul]
    rw [v3, w2]
    omega
  · have hdm := Nat.div_add_mod x C
    have hml := Nat.mod_lt x hCpos
    rw [Nat.mul_comm] at hdm
    have hlt : x / C < (S + C - 1) / C := by
      by_contra hge
      have : (S + C - 1) / C * C ≤ x / C * C := Nat.mul_le_mul_right C (by omega)
      omega
    refine ⟨x / C, ⟨hlt, ?_, ?_⟩, ?_⟩
    · obtain ⟨_, v2, _⟩ := chunker_valid_index S C (x / C) hC hfit hlt
      rw [v2]; omega
    · obtain ⟨_, _, v3⟩ := chunker_valid_index S C (x / C) hC hfit hlt
      rw [v3]; omega
    · rintro i ⟨hi, hb, he⟩
      obtain ⟨_, v2, v3⟩ := chunker_valid_index S C i hC hfit hi
      rw [v2] at hb
      rw [v3] at he
      have hsucc : (i + 1) * C = i * C + C := by rw [Nat.add_mul, Nat.one_mul]
      have h1 : i ≤ x / C := (Nat.le_div_iff_mul_le hCpos).mpr hb
      have h2 : x / C < i + 1 := (Nat.div_lt_iff_lt_mul hCpos).mpr (by omega)
      omega
  · obtain ⟨_, _, v3⟩ := chunker_valid_index S C i hC hfit hi
    rw [v3] at hxe
    omega

/-- Witness for `chunker_partition`: total size 100 in chunks of 5. -/
theorem chunker_partition_witness :
    (1 ≤ 5 ∧ (100 + 5 - 1) / 5 * 5 < 2 ^ 32) ∧
    (∀ i, i < (100 + 5 - 1) / 5 →
      (⟨5, 100⟩ : __chunker).__begin i < (⟨5, 100⟩ : __chunker).__end i ∧
      (⟨5, 100⟩ : __chunker).__end i - (⟨5, 100⟩ : __chunker).__begin i ≤ 5) ∧
    (∀ i j, i < j → j < (100 + 5 - 1) / 5 →
      (⟨5, 100⟩ : __chunker).__end i ≤ (⟨5, 100⟩ : __chunker).__begin j) ∧
    (∀ x, x < 100 → ∃! i, i < (100 + 5 - 1) / 5 ∧
      (⟨5, 100⟩ : __chunker).__begin i ≤ x ∧ x < (⟨5, 100⟩ : __chunker).__end i) ∧
    (∀ i x, i < (100 + 5 - 1) / 5 → x < (⟨5, 100⟩ : __chunker).__end i → x < 100) :=
  ⟨⟨by decide, by decide⟩, chunker_partition 100 5 (by decide) (by decide)⟩

/-- C1 fails as stated: with `S = 4294967295` and `C = 2` the valid indices are
`0 .. 2147483647`; for the last one `__begin` is 4294967294 but `__begin(i + 1)` wraps to
0, so `__end` is 0 and the value 4294967294 of `[0, S)` lies in no chunk. -/
theorem chunker_wrap_counterexample :
    2147483647 < (4294967295 + 2 - 1) / 2 ∧
    (⟨2, 4294967295⟩ : __chunker).__begin 2147483647 = 4294967294 ∧
    (⟨2, 4294967295⟩ : __chunker).__end 2147483647 = 0 ∧
    4294967294 < 4294967295 ∧
    ¬ ∃ i, i < (4294967295 + 2 - 1) / 2 ∧
      (⟨2, 4294967295⟩ : __chunker).__begin i ≤ 4294967294 ∧
      4294967294 < (⟨2, 4294967295⟩ : __chunker).__end i := by
  refine ⟨by decide, by decide, by decide, by decide, ?_⟩
  rintro ⟨i, hi, _, he⟩
  simp only [__chunker.__end, __chunker.__begin, mul32, add32] at he
  omega

/-! ## Chunk size and chunk count of `schedule_bulk_chunked` -/

/-- C2 at the failing input: with `__available_parallelism_ = 8` and
`__size = 4294967295` the chunk size is `4294967295 / 8 / 2 = 268435455`, the sum
`__size + __chunk_size - 1` wraps to 268435453, and `__num_chunks` is 0 where
`⌈4294967295 / 268435455⌉` is 17; no `execute` call is issued. -/
theorem num_chunks_wraps_to_zero :
    0 < 8 ∧ 4294967295 > 3 * 8 ∧
    __chunk_size 8 4294967295 = 4294967295 / 8 / 2 ∧
    __chunk_size 8 4294967295 = 268435455 ∧
    (4294967295 + 268435455 - 1) / 268435455 = 17 ∧
    __num_chunks 8 4294967295 = some 0 ∧
    schedule_bulk_chunked 8 4294967295 = some [] := by
  decide

/-- When the test `__available_parallelism_ > 0 && __size > 3 * __available_parallelism_`
of `schedule_bulk_chunked` fails (the product being the `uint32_t` one), the chunk size
is 1, there are `size` chunks, chunk `i` is `[i, i + 1)`, and the `execute` calls are those
of `schedule_bulk_unchunked`. -/
theorem chunked_when_test_fails (p size : Nat) (hsize : size < 2 ^ 32)
    (hcond : p = 0 ∨ size ≤ mul32 3 p) :
    __chunk_size p size = 1 ∧
    __num_chunks p size = some size ∧
    (∀ i, i < size → __bulk_chunked_functor ⟨__chunk_size p size, size⟩ i = (i, i + 1)) ∧
    (∀ i, i < size → __bulk_unchunked_functor i = (i, i + 1)) ∧
    schedule_bulk_chunked p size = some (schedule_bulk_unchunked size) := by
  have hcs : __chunk_size p size = 1 := by
    unfold __chunk_size
    rw [if_neg]
    rintro ⟨h1, h2⟩
    rcases hcond with h | h <;> omega
  have hnum : __num_chunks p size = some size := by
    unfold __num_chunks
    simp only [hcs]
    rw [if_neg (by omega)]
    unfold sub32 add32
    congr 1
    rw [Nat.div_one]
    omega
  have hch : ∀ i, i < size → __bulk_chunked_functor ⟨1, size⟩ i = (i, i + 1) := by
    intro i hi
    unfold __bulk_chunked_functor __chunker.__end __chunker.__begin mul32 add32 toU32
    simp only [Nat.mul_one, Prod.mk.injEq]
    constructor <;> omega
  have hun : ∀ i, i < size → __bulk_unchunked_functor i = (i, i + 1) := by
    intro i hi
    unfold __bulk_unchunked_functor add64 toU32
    simp only [Prod.mk.injEq]
    constructor <;> omega
  refine ⟨hcs, hnum, ?_, hun, ?_⟩
  · rw [hcs]; exact hch
  · unfold schedule_bulk_chunked schedule_bulk_unchunked bulk
    simp only [hnum, hcs]
    congr 1
    apply List.map_congr_left
    intro i hi
    have hi2 : i < size := List.mem_range.mp hi
    rw [hch i hi2, hun i hi2]

/-- C7: for every size, when the available parallelism is 0, and likewise whenever
`size ≤ 3 * parallelism`, `schedule_bulk_chunked` uses chunk size 1, dispatches exactly
`size` chunks, chunk `i` is the range `[i, i + 1)`, and the `execute(begin, end)` calls
are exactly those `schedule_bulk_unchunked` issues for the same size. The available
parallelism is the thread count the pool reported when the backend was constructed, a
value whose triple fits in `uint32_t`. -/
theorem chunked_degenerates_to_unchunked (p size : Nat) (hsize : size < 2 ^ 32)
    (hthreads : 3 * p < 2 ^ 32) (hcond : p = 0 ∨ size ≤ 3 * p) :
    __chunk_size p size = 1 ∧
    __num_chunks p size = some size ∧
    (∀ i, i < size → __bulk_chunked_functor ⟨__chunk_size p size, size⟩ i = (i, i + 1)) ∧
    (∀ i, i < size → __bulk_unchunked_functor i = (i, i + 1)) ∧
    schedule_bulk_chunked p size = some (schedule_bulk_unchunked size) := by
  have hmul : mul32 3 p = 3 * p := by
    unfold mul32
    exact Nat.mod_eq_of_lt hthreads
  exact chunked_when_test_fails p size hsize (by rw [hmul]; exact hcond)

/-- Witness for `chunked_degenerates_to_unchunked`: size 7 on 10 workers (`7 ≤ 30`), and
size 7 with parallelism 0. -/
theorem chunked_degenerates_to_unchunked_witness :
    (7 < 2 ^ 32 ∧ 3 * 10 < 2 ^ 32 ∧ 7 ≤ 3 * 10 ∧
      __chunk_size 10 7 = 1 ∧ __num_chunks 10 7 = some 7 ∧
      schedule_bulk_chunked 10 7 = some (schedule_bulk_unchunked 7) ∧
      schedule_bulk_unchunked 7 = [(0, 1), (1, 2), (2, 3), (3, 4), (4, 5), (5, 6), (6, 7)]) ∧
    (7 < 2 ^ 32 ∧ 3 * 0 < 2 ^ 32 ∧
      __chunk_size 0 7 = 1 ∧ __num_chunks 0 7 = some 7 ∧
      schedule_bulk_chunked 0 7 = some (schedule_bulk_unchunked 7)) :=
  ⟨⟨by decide, by decide, by decide,
      (chunked_degenerates_to_unchunked 10 7 (by decide) (by decide)
        (Or.inr (by decide))).1,
      (chunked_degenerates_to_unchunked 10 7 (by decide) (by decide)
        (Or.inr (by decide))).2.1,
      (chunked_degenerates_to_unchunked 10 7 (by decide) (by decide)
        (Or.inr (by decide))).2.2.2.2,
      by decide⟩,
    ⟨by decide, by decide,
      (chunked_degenerates_to_unchunked 0 7 (by decide) (by decide) (Or.inl rfl)).1,
      (chunked_degenerates_to_unchunked 0 7 (by decide) (by decide) (Or.inl rfl)).2.1,
      (chunked_degenerates_to_unchunked 0 7 (by decide) (by decide) (Or.inl rfl)).2.2.2.2⟩⟩

/-- Outside the thread counts a pool reports: for a parallelism of 1431655766 the
`uint32_t` product `3 * parallelism` wraps to 2, so for size 3 the test
`size > 3 * parallelism` succeeds and the chunk size is `3 / 1431655766 / 2 = 0`, which
makes the chunk count a division by zero; for size 2863311532 on the same parallelism the
chunk size is 1 and there are `size` chunks. -/
theorem chunk_size_beyond_thread_counts :
    ¬ 3 * 1431655766 < 2 ^ 32 ∧
    mul32 3 1431655766 = 2 ∧
    __chunk_size 1431655766 3 = 0 ∧
    __num_chunks 1431655766 3 = none ∧
    schedule_bulk_chunked 1431655766 3 = none ∧
    __chunk_size 1431655766 2863311532 = 1 ∧
    __num_chunks 1431655766 2863311532 = some 2863311532 := by
  decide

/-! ## Singleton registry, sequential -/

/-- Both registry operations leave the spin lock released, so between the calls of a
single-threaded execution the lock is free. -/
theorem registry_calls_release_lock (s : Registry) :
    (∀ r s1, __get_current_instance s = some (r, s1) → s1.__instance_locked_ = false) ∧
    (∀ f g s1, __set_backend_factory s f = some (g, s1) → s1.__instance_locked_ = false) := by
  constructor
  · intro r s1 h
    unfold __get_current_instance __acquire_instance_lock at h
    by_cases hl : s.__instance_locked_ = true
    · simp [hl] at h
    · by_cases hi : s.__instance_.isSome = true
      · simp [hl, hi, __release_instance_lock] at h
        rw [← h.2]
      · simp [hl, hi, __release_instance_lock, Registry.invoke,
          __acquire_instance_lock] at h
        rw [← h.2]
  · intro f g s1 h
    unfold __set_backend_factory __acquire_instance_lock at h
    by_cases hl : s.__instance_locked_ = true
    · simp [hl, Registry.invoke] at h
    · simp [hl, Registry.invoke, __release_instance_lock] at h
      rw [← h.2]

/-- C5: in a single-threaded execution (the spin lock is free when a call begins), for
every registry state `s` and every factory `f` whose call returns a non-null instance,
`__set_backend_factory(f)` returns the factory stored in `s` just before the call, having
called `f` exactly once; and the `__get_current_instance()` that follows returns the very
pointer which that call of `f` produced, without calling any factory. -/
theorem set_backend_factory_then_get (s : Registry) (f : Factory)
    (hfree : s.__instance_locked_ = false)
    (hnonnull : (f.make s.calls.length).isSome = true) :
    ∃ s1 s2,
      __set_backend_factory s f = some (s.__factory_, s1) ∧
      s1.calls = s.calls ++ [f.addr] ∧
      s1.__factory_ = f ∧
      s1.__instance_ = f.make s.calls.length ∧
      __get_current_instance s1 = some (f.make s.calls.length, s2) ∧
      s2.calls = s1.calls ∧
      s2.__instance_ = f.make s.calls.length := by
  refine ⟨⟨false, f.make s.calls.length, f, s.calls ++ [f.addr]⟩,
    ⟨false, f.make s.calls.length, f, s.calls ++ [f.addr]⟩, ?_, rfl, rfl, rfl, ?_, rfl, rfl⟩
  · simp [__set_backend_factory, Registry.invoke, __acquire_instance_lock, hfree,
      __release_instance_lock]
  · simp [__get_current_instance, __acquire_instance_lock, __release_instance_lock, hnonnull]

/-- Witness for `set_backend_factory_then_get`: on the freshly initialised registry,
installing a factory returns `__default_factory`, and the instance then current is the
one the new factory made. -/
theorem set_backend_factory_then_get_witness :
    (Registry.initial.__instance_locked_ = false ∧
      (Option.isSome ((⟨5, fun n => some (n + 10)⟩ : Factory).make
        Registry.initial.calls.length) = true)) ∧
    ∃ s1 s2,
      __set_backend_factory Registry.initial ⟨5, fun n => some (n + 10)⟩
        = some (__default_factory, s1) ∧
      s1.calls = [] ++ [5] ∧
      s1.__factory_ = ⟨5, fun n => some (n + 10)⟩ ∧
      s1.__instance_ = some 10 ∧
      __get_current_instance s1 = some (some 10, s2) ∧
      s2.calls = s1.calls ∧
      s2.__instance_ = some 10 :=
  ⟨⟨rfl, rfl⟩,
    set_backend_factory_then_get Registry.initial ⟨5, fun n => some (n + 10)⟩ rfl rfl⟩

/-! ## Singleton registry, concurrent calls -/

theorem step_threads (s : Sys) (t u : Nat) :
    (s.step t).threads u
      = if u = t then Thread.next s.locked s.inst (s.make s.made) (s.threads t)
        else s.threads u := by
  unfold Sys.step
  cases h : s.threads t <;> simp only [Thread.next, Sys.setThread] <;>
    split <;> (try split) <;> simp_all

theorem step_inst (s : Sys) (t : Nat) :
    (s.step t).inst = match s.threads t with
      | Thread.holding2 n => n
      | _ => s.inst := by
  unfold Sys.step
  cases h : s.threads t <;> simp only [Sys.setThread] <;> (try split) <;> rfl

theorem step_make (s : Sys) (t : Nat) : (s.step t).make = s.make := by
  unfold Sys.step
  cases h : s.threads t <;> simp only [Sys.setThread] <;> (try split) <;> rfl

theorem step_locked (s : Sys) (t : Nat) :
    (s.step t).locked = match s.threads t with
      | Thread.acquiring1 => true
      | Thread.acquiring2 _ => true
      | Thread.read _ => false
      | Thread.stored _ => false
      | _ => s.locked := by
  unfold Sys.step
  cases h : s.threads t <;> simp only [Sys.setThread] <;> (try split) <;> simp_all

theorem run_append (s : Sys) (a b : List Nat) : s.run (a ++ b) = (s.run a).run b := by
  induction a generalizing s with
  | nil => rfl
  | cons t a ih => exact ih (s.step t)

theorem run_make (s : Sys) (sched : List Nat) : (s.run sched).make = s.make := by
  induction sched generalizing s with
  | nil => rfl
  | cons t a ih => exact (ih (s.step t)).trans (step_make s t)

theorem wf_mono (b : Bool) (th : Thread) (h : th.wf b = true) : th.wf true = true := by
  cases th <;> simp_all [Thread.wf]

/-- Consistency of every thread with the registry is preserved by a step. -/
theorem wf_step (s : Sys) (t : Nat) (hmake : ∀ n, (s.make n).isSome = true)
    (h : ∀ u, (s.threads u).wf s.inst.isSome = true) :
    ∀ u, ((s.step t).threads u).wf (s.step t).inst.isSome = true := by
  intro u
  have ht := h t
  have hu := h u
  have hm := hmake s.made
  rw [step_threads, step_inst]
  by_cases hut : u = t
  · subst hut
    simp only [if_true]
    cases hth : s.threads u <;> simp only [hth, Thread.next] at ht ⊢ <;>
      (try split_ifs) <;> (try cases hi : s.inst) <;> simp_all [Thread.wf]
  · simp only [hut, if_false]
    cases hth : s.threads t <;> simp only [hth] at ht ⊢ <;> try exact hu
    rename_i n
    simp only [Thread.wf] at ht
    rw [ht]
    exact wf_mono _ _ hu

/-- Consistency holds in every state reached from a cold start. -/
theorem wf_run (make : Nat → Option Nat) (hmake : ∀ n, (make n).isSome = true)
    (s : Sys) (hs : s.make = make) (h : ∀ u, (s.threads u).wf s.inst.isSome = true)
    (sched : List Nat) :
    ∀ u, (((s.run sched).threads u).wf (s.run sched).inst.isSome = true) := by
  induction sched generalizing s with
  | nil => exact h
  | cons t a ih =>
    exact ih (s.step t) ((step_make s t).trans hs)
      (wf_step s t (by rw [hs]; exact hmake) h)

theorem wf_cold (make : Nat → Option Nat) (hmake : ∀ n, (make n).isSome = true)
    (sched : List Nat) (u : Nat) :
    (((Sys.cold make).run sched).threads u).wf ((Sys.cold make).run sched).inst.isSome
      = true :=
  wf_run make hmake (Sys.cold make) rfl (fun _ => rfl) sched u

/-- Once the registry holds `x` and no call is left that found it empty and has yet to
store, a step keeps it so, and the calls that had not begun observe `x` only. -/
theorem stable_step (x : Nat) (base : Nat → Thread) (s : Sys) (t : Nat)
    (hinst : s.inst = some x) (hpend : ∀ u, (s.threads u).pendingStore = false)
    (hfol : ∀ u, base u = Thread.idle → (s.threads u).follows x = true) :
    (s.step t).inst = some x ∧
    (∀ u, ((s.step t).threads u).pendingStore = false) ∧
    (∀ u, base u = Thread.idle → ((s.step t).threads u).follows x = true) := by
  have hp := hpend t
  refine ⟨?_, fun u => ?_, fun u hb => ?_⟩
  · rw [step_inst]
    cases hth : s.threads t <;> simp only [hth, Thread.pendingStore] at hp ⊢ <;>
      first | exact hinst | cases hp
  · have hu := hpend u
    rw [step_threads]
    by_cases hut : u = t
    · subst hut
      simp only [if_true]
      clear hpend hfol hu
      cases hth : s.threads u <;> simp only [hth, Thread.next, Thread.pendingStore] at hp ⊢ <;>
        (try split_ifs) <;> simp_all [Thread.pendingStore]
    · simp only [hut, if_false]
      exact hu
  · have hu := hfol u hb
    rw [step_threads]
    by_cases hut : u = t
    · subst hut
      simp only [if_true]
      clear hpend hfol hb
      cases hth : s.threads u <;>
        simp only [hth, Thread.next, Thread.pendingStore, Thread.follows] at hp hu ⊢ <;>
        (try split_ifs) <;> simp_all [Thread.follows]
    · simp only [hut, if_false]
      exact hu

theorem stable_run (x : Nat) (base : Nat → Thread) (s : Sys)
    (hinst : s.inst = some x) (hpend : ∀ u, (s.threads u).pendingStore = false)
    (hfol : ∀ u, base u = Thread.idle → (s.threads u).follows x = true)
    (sched : List Nat) :
    ∀ u, base u = Thread.idle → ((s.run sched).threads u).follows x = true := by
  induction sched generalizing s with
  | nil => exact hfol
  | cons t a ih =>
    obtain ⟨h1, h2, h3⟩ := stable_step x base s t hinst hpend hfol
    exact ih (s.step t) h1 h2 h3

/-- A thread that is not kept waiting gets strictly closer to returning. -/
theorem solo_step (s : Sys) (t : Nat)
    (hfree : s.locked = false ∨ (s.threads t).holdsLock = true)
    (hrem : (s.threads t).remaining ≠ 0) :
    ((s.step t).threads t).remaining < (s.threads t).remaining ∧
    ((s.step t).locked = false ∨ ((s.step t).threads t).holdsLock = true) := by
  rw [step_threads, step_locked]
  simp only [if_true]
  cases hth : s.threads t <;>
    simp only [hth, Thread.next, Thread.remaining, Thread.holdsLock] at hfree hrem ⊢ <;>
    (try split_ifs) <;> simp_all [Thread.remaining, Thread.holdsLock]

/-- A thread that is not kept waiting returns. -/
theorem solo_progress (n : Nat) : ∀ (s : Sys) (t : Nat), (s.threads t).remaining ≤ n →
    (s.locked = false ∨ (s.threads t).holdsLock = true) →
    ∃ sched r, (s.run sched).threads t = Thread.done r := by
  induction n with
  | zero =>
    intro s t hn _
    refine ⟨[], ?_⟩
    cases hth : s.threads t <;> simp only [hth, Thread.remaining] at hn <;>
      first | omega | exact ⟨_, hth⟩
  | succ n ih =>
    intro s t hn hfree
    by_cases h0 : (s.threads t).remaining = 0
    · exact ih s t (by omega) hfree
    · obtain ⟨h1, h2⟩ := solo_step s t hfree h0
      obtain ⟨sched, r, hr⟩ := ih (s.step t) t (by omega) h2
      exact ⟨t :: sched, r, hr⟩

/-- A held lock has a holder: preserved by a step. -/
theorem holder_step (s : Sys) (t : Nat)
    (h : s.locked = true → ∃ u, (s.threads u).holdsLock = true) :
    (s.step t).locked = true → ∃ u, ((s.step t).threads u).holdsLock = true := by
  intro hl
  by_cases hnext :
      (Thread.next s.locked s.inst (s.make s.made) (s.threads t)).holdsLock = true
  · exact ⟨t, by rw [step_threads, if_pos rfl]; exact hnext⟩
  · have hold : s.locked = true ∧ (s.threads t).holdsLock = false := by
      rw [step_locked] at hl
      clear h
      cases hth : s.threads t <;>
        simp only [hth, Thread.next, Thread.holdsLock] at hl hnext ⊢ <;>
        (try split_ifs at hnext) <;> simp_all [Thread.holdsLock]
    obtain ⟨u, hu⟩ := h hold.1
    have hne : u ≠ t := by
      rintro rfl
      rw [hold.2] at hu
      cases hu
    exact ⟨u, by rw [step_threads, if_neg hne]; exact hu⟩

theorem holder_run (s : Sys) (h : s.locked = true → ∃ u, (s.threads u).holdsLock = true)
    (sched : List Nat) :
    (s.run sched).locked = true → ∃ u, ((s.run sched).threads u).holdsLock = true := by
  induction sched generalizing s with
  | nil => exact h
  | cons t a ih => exact ih (s.step t) (holder_step s t h)

/-- The holder of the lock releases it within two steps of its own. -/
theorem holder_release (s : Sys) (u : Nat) (hu : (s.threads u).holdsLock = true) :
    ∃ sched, (s.run sched).locked = false := by
  cases hth : s.threads u with
  | holding1 =>
    refine ⟨[u, u], ?_⟩
    show ((s.step u).step u).locked = false
    simp [step_locked, step_threads, hth, Thread.next]
  | read r =>
    refine ⟨[u], ?_⟩
    show (s.step u).locked = false
    simp [step_locked, hth]
  | holding2 n =>
    refine ⟨[u, u], ?_⟩
    show ((s.step u).step u).locked = false
    simp [step_locked, step_threads, hth, Thread.next]
  | stored n =>
    refine ⟨[u], ?_⟩
    show (s.step u).locked = false
    simp [step_locked, hth]
  | _ => simp [hth, Thread.holdsLock] at hu

/-- From every state in which a held lock has a holder, every call can be run to its
return. -/
theorem can_complete (s : Sys) (h : s.locked = true → ∃ u, (s.threads u).holdsLock = true)
    (t : Nat) : ∃ sched r, (s.run sched).threads t = Thread.done r := by
  have hrem : ∀ th : Thread, th.remaining ≤ 10 := by
    intro th; cases th <;> simp [Thread.remaining]
  by_cases hl : s.locked = true
  · obtain ⟨u, hu⟩ := h hl
    obtain ⟨pre, hpre⟩ := holder_release s u hu
    obtain ⟨sched, r, hr⟩ := solo_progress 10 (s.run pre) t (hrem _) (Or.inl hpre)
    exact ⟨pre ++ sched, r, by rw [run_append]; exact hr⟩
  · exact solo_progress 10 s t (hrem _) (Or.inl (by simpa using hl))

/-- C8 (as amended): for every interleaving of `__get_current_instance()` calls from a cold
start with a factory that returns non-null pointers: every call that has returned has
returned a non-null instance, and every call can be run to its return; and once some call
has returned and no call is left that found the registry empty and has yet to store its
instance, all calls that begin from then on return one and the same instance, the one the
registry holds. -/
theorem cold_start_calls (make : Nat → Option Nat) (hmake : ∀ n, (make n).isSome = true)
    (sched : List Nat) :
    (∀ t r, ((Sys.cold make).run sched).threads t = Thread.done r → r.isSome = true) ∧
    (∀ t, ∃ more r, (((Sys.cold make).run sched).run more).threads t = Thread.done r) ∧
    ((∃ t r, ((Sys.cold make).run sched).threads t = Thread.done r) →
      (∀ t, (((Sys.cold make).run sched).threads t).pendingStore = false) →
      ∃ x, ((Sys.cold make).run sched).inst = some x ∧
        ∀ later t r, ((Sys.cold make).run sched).threads t = Thread.idle →
          (((Sys.cold make).run sched).run later).threads t = Thread.done r →
          r = some x) := by
  refine ⟨fun t r h => ?_, fun t => ?_, ?_⟩
  · have hw := wf_cold make hmake sched t
    rw [h] at hw
    simp only [Thread.wf, Bool.and_eq_true] at hw
    exact hw.1
  · exact can_complete _
      (holder_run (Sys.cold make) (fun h => by simp [Sys.cold] at h) sched) t
  · rintro ⟨t0, r0, h0⟩ hpend
    have hw := wf_cold make hmake sched t0
    rw [h0] at hw
    simp only [Thread.wf, Bool.and_eq_true] at hw
    obtain ⟨x, hx⟩ := Option.isSome_iff_exists.mp hw.2
    refine ⟨x, hx, fun later t r hidle hdone => ?_⟩
    have hf := stable_run x ((Sys.cold make).run sched).threads _ hx hpend
      (fun u hu => by rw [hu]; rfl) later t hidle
    rw [hdone] at hf
    simpa [Thread.follows] using hf

/-- Witness for `cold_start_calls`: with the default factory, after thread 0 has run its
call alone to the end, every later call returns the instance thread 0 stored. -/
theorem cold_start_calls_witness :
    (∀ n, (__default_factory.make n).isSome = true) ∧
    ((Sys.cold __default_factory.make).run [0, 0, 0, 0, 0, 0, 0, 0, 0, 0]).threads 0
      = Thread.done (some 0) ∧
    ∃ x, ((Sys.cold __default_factory.make).run [0, 0, 0, 0, 0, 0, 0, 0, 0, 0]).inst = some x ∧
      ∀ later t r,
        ((Sys.cold __default_factory.make).run [0, 0, 0, 0, 0, 0, 0, 0, 0, 0]).threads t
          = Thread.idle →
        (((Sys.cold __default_factory.make).run [0, 0, 0, 0, 0, 0, 0, 0, 0, 0]).run
          later).threads t = Thread.done r →
        r = some x :=
  ⟨fun _ => rfl, by decide,
    (cold_start_calls __default_factory.make (fun _ => rfl)
      [0, 0, 0, 0, 0, 0, 0, 0, 0, 0]).2.2 ⟨0, some 0, by decide⟩
      (fun t => by
        by_cases h : t = 0
        · subst h; decide
        · simp [Sys.run, Sys.step, Sys.cold, Sys.setThread, h, Thread.pendingStore])⟩

/-- C8 fails as stated: threads 0 and 1 both find the registry empty; thread 0 stores
instance 0 and returns; thread 2 then begins and returns instance 0; thread 1 stores
instance 1 over it and returns; thread 3 then begins and returns instance 1. Threads 2 and
3 both began after thread 0 had returned, and return different instances. -/
theorem cold_start_counterexample :
    ((Sys.cold __default_factory.make).run
        [0, 0, 0, 0, 0, 1, 1, 1, 1, 1, 0, 0, 0, 0, 0]).threads 0 = Thread.done (some 0) ∧
    ((Sys.cold __default_factory.make).run
        [0, 0, 0, 0, 0, 1, 1, 1, 1, 1, 0, 0, 0, 0, 0]).threads 2 = Thread.idle ∧
    ((Sys.cold __default_factory.make).run
        [0, 0, 0, 0, 0, 1, 1, 1, 1, 1, 0, 0, 0, 0, 0]).threads 3 = Thread.idle ∧
    (((Sys.cold __default_factory.make).run
        [0, 0, 0, 0, 0, 1, 1, 1, 1, 1, 0, 0, 0, 0, 0]).run
        [2, 2, 2, 2, 2, 1, 1, 1, 1, 1, 3, 3, 3, 3, 3]).threads 2 = Thread.done (some 0) ∧
    (((Sys.cold __default_factory.make).run
        [0, 0, 0, 0, 0, 1, 1, 1, 1, 1, 0, 0, 0, 0, 0]).run
        [2, 2, 2, 2, 2, 1, 1, 1, 1, 1, 3, 3, 3, 3, 3]).threads 3 = Thread.done (some 1) ∧
    (∀ n, (__default_factory.make n).isSome = true) :=
  ⟨by decide, by decide, by decide, by decide, by decide, fun _ => rfl⟩

end SystemContext
